import Mathlib

/-!
Verification of the rug_chemsearch_cl core against its specification.

The Python source (`extract_chemicals.py`, `web_app.py`) is shallowly embedded:
pure functions become Lean functions, dictionaries become association lists
(`List (key × value)`, keys unique, Python dict insertion-order semantics),
network calls become explicit oracle parameters, and Python `set` objects —
whose iteration order is implementation-defined — are modelled as `Finset`
plus an explicit enumeration parameter wherever the code turns a set back
into a list.
-/

/-- Python dict read: `m[k]` / `k in m`. Returns the value at the first
matching key (keys are unique in every dict we model). -/
def dlookup {α : Type} (m : List (String × α)) (k : String) : Option α :=
  (m.find? (fun p => p.1 = k)).map Prod.snd

/-- Python dict write `m[k] = v`: replaces the value in place when the key
exists, otherwise appends (CPython dicts preserve insertion order and keep
an updated key at its original position). -/
def dinsert {α : Type} (m : List (String × α)) (k : String) (v : α) : List (String × α) :=
  if (m.find? (fun p => p.1 = k)).isSome then
    m.map (fun p => if p.1 = k then (k, v) else p)
  else
    m ++ [(k, v)]

theorem dlookup_eq_none {α : Type} {m : List (String × α)} {k : String} :
    dlookup m k = none ↔ ∀ p ∈ m, p.1 ≠ k := by
  simp [dlookup, List.find?_eq_none]

theorem dlookup_mem {α : Type} {m : List (String × α)} {k : String} {v : α}
    (h : dlookup m k = some v) : (k, v) ∈ m := by
  simp only [dlookup, Option.map_eq_some'] at h
  obtain ⟨p, hp, hv⟩ := h
  have hmem := List.mem_of_find?_eq_some hp
  have hpred := List.find?_some hp
  simp only [decide_eq_true_eq] at hpred
  cases p
  simp only at hv hpred
  subst hv hpred
  exact hmem

/-! ## IdentifierValidator (`extract_chemicals.py`, `validate_cas_number`) -/

/-- The compiled regex `CAS_PATTERN = re.compile(r"^\d{1,7}-\d{2}-\d$")`,
`\d` modelled as the ASCII digits the CAS data actually contains.
Matching is checked from the right end of the string: one digit, a hyphen,
two digits, a hyphen, then one to seven digits. -/
def casPatternMatch (s : String) : Bool :=
  match s.data.reverse with
  | d0 :: '-' :: d1 :: d2 :: '-' :: rest =>
      d0.isDigit && d1.isDigit && d2.isDigit &&
      decide (1 ≤ rest.length) && decide (rest.length ≤ 7) && rest.all Char.isDigit
  | _ => false

/-- `validate_cas_number` (extract_chemicals.py:1105-1117): rejects the empty
string (Python falsy) and the `"00-00-0"` placeholder, otherwise matches the
CAS pattern. -/
def validate_cas_number (cas : String) : Bool :=
  if cas = "" ∨ cas = "00-00-0" then false
  else casPatternMatch cas

/-! ## FilterResultStore (`extract_chemicals.py`, `save_filter_result`) -/

/-- One persisted filter result (the JSON object built in
`save_filter_result`). A record freshly created by `save_filter_result`
carries no `saved` key; `r.get("saved")` is then falsy, modelled by
`saved := false`. -/
structure FilterResult where
  id : String
  search_name : String
  operation : String
  matching_cids : List Nat
  match_count : Nat
  pubchem_url : String
  created : String
  saved : Bool
deriving DecidableEq, Repr

/-- A freshly created, not-yet-saved filter record as built inside
`save_filter_result`. -/
def filterEntry (filter_id search_name operation : String)
    (matching_cids : List Nat) (pubchem_url created : String) : FilterResult :=
  { id := filter_id, search_name := search_name, operation := operation,
    matching_cids := matching_cids, match_count := matching_cids.length,
    pubchem_url := pubchem_url, created := created, saved := false }

/-- `save_filter_result` (extract_chemicals.py:1963-1984) as a function of
the previously stored list. The generated `uuid4` id and `datetime.now()`
timestamp are passed in as parameters `filter_id` and `created`. The store
is rewritten as `saved + unsaved[:10]`. -/
def save_filter_result (prior : List FilterResult)
    (filter_id search_name operation : String) (matching_cids : List Nat)
    (pubchem_url created : String) : List FilterResult :=
  let results :=
    filterEntry filter_id search_name operation matching_cids pubchem_url created :: prior
  let savedEntries := results.filter (fun r => r.saved)
  let unsavedEntries := results.filter (fun r => !r.saved)
  savedEntries ++ unsavedEntries.take 10

/-! ## Stale-handle blacklist (`extract_chemicals.py`,
`load_stale_searches` / `mark_search_as_stale`) -/

/-- `load_stale_searches` (extract_chemicals.py:2106-2114): the stored JSON
`cache_keys` list is turned into a Python `set`, i.e. deduplicated and
order-forgotten. -/
def load_stale_searches (stored : List String) : Finset String :=
  stored.toFinset

/-- `mark_search_as_stale` (extract_chemicals.py:2117-2126): add the key to
the loaded set, then persist `list(stale)[-100:]`. Python's `list(set)`
enumerates in an implementation-defined order; that order is the explicit
parameter `enum` (any function enumerating a `Finset` without duplicates).
`l[-100:]` keeps the last 100 elements, i.e. drops `length - 100` from the
front (the whole list when it has at most 100 elements). -/
def mark_search_as_stale (enum : Finset String → List String)
    (cache_key : String) (stored : List String) : List String :=
  let stale := load_stale_searches stored
  let l := enum (insert cache_key stale)
  l.drop (l.length - 100)

/-- One concrete legitimate enumeration order of a Python string set:
ascending lexicographic. -/
def sortedEnum (s : Finset String) : List String :=
  s.sort (· ≤ ·)

theorem sortedEnum_nodup (s : Finset String) : (sortedEnum s).Nodup :=
  Finset.sort_nodup _ s

theorem sortedEnum_mem (s : Finset String) (x : String) :
    x ∈ sortedEnum s ↔ x ∈ s :=
  Finset.mem_sort _

/-- C3 counterexample: the claim says the validator rejects `"0-00-0"`, but
the code accepts it — it matches `^\d{1,7}-\d{2}-\d$` and differs from the
`"00-00-0"` placeholder. -/
theorem C3_counterexample_accepts_0_00_0 : validate_cas_number "0-00-0" = true := by
  decide

/-- C3 (amended): the validator accepts `"64-17-5"`, rejects `"12345"` and
the placeholder `"00-00-0"`, rejects every string failing the 1–7/2/1-digit
pattern, and accepts `"0-00-0"` (it matches the pattern and is not the
placeholder). -/
theorem C3_validator_examples :
    validate_cas_number "64-17-5" = true ∧
    validate_cas_number "12345" = false ∧
    validate_cas_number "00-00-0" = false ∧
    validate_cas_number "0-00-0" = true ∧
    (∀ s : String, casPatternMatch s = false → validate_cas_number s = false) := by
  refine ⟨by decide, by decide, by decide, by decide, ?_⟩
  intro s h
  unfold validate_cas_number
  split <;> simp [h]

/-- Witness for C3: the pattern-rejection clause applied at `"abc"`. -/
theorem C3_validator_examples_witness : validate_cas_number "abc" = false :=
  C3_validator_examples.2.2.2.2 "abc" (by decide)

/-- Any string starting with `'b'` is lexicographically above `"a"`. -/
theorem string_a_lt_b_append (t : String) : "a" < "b" ++ t := by
  rw [String.lt_iff_toList_lt]
  have hdata : ("b" ++ t).toList = 'b' :: t.toList := rfl
  rw [hdata]
  show List.Lex (· < ·) "a".toList ('b' :: t.toList)
  have h1 : "a".toList = ['a'] := rfl
  rw [h1]
  exact List.Lex.rel (by decide)

/-- A concrete full blacklist: 100 pairwise-distinct handles. -/
def ceStored : List String := (List.range 100).map (fun i => "b" ++ toString i)

/-- C10 counterexample: with a full blacklist (100 prior handles) and a
legitimate set-enumeration order that lists the new handle first (here:
lexicographically ascending, and `"a"` sorts below every stored handle),
`list(stale)[-100:]` drops the handle that was just blacklisted. -/
theorem C10_counterexample_new_handle_dropped :
    "a" ∉ mark_search_as_stale sortedEnum "a" ceStored := by
  intro hmem
  have hmem' : "a" ∈ (sortedEnum (insert "a" (load_stale_searches ceStored))).drop
      ((sortedEnum (insert "a" (load_stale_searches ceStored))).length - 100) := hmem
  set T := insert "a" (load_stale_searches ceStored) with hT
  set l := sortedEnum T with hl
  have hnodupS : ceStored.Nodup := by decide
  have hanotin : ("a" : String) ∉ load_stale_searches ceStored := by
    rw [load_stale_searches, List.mem_toFinset]
    decide
  have hcardS : (load_stale_searches ceStored).card = 100 := by
    rw [load_stale_searches, List.toFinset_card_of_nodup hnodupS]
    decide
  have hcard : T.card = 101 := by
    rw [hT, Finset.card_insert_of_not_mem hanotin, hcardS]
  have hlen : l.length = 101 := by
    rw [hl, sortedEnum, Finset.length_sort]
    exact hcard
  have hdrop1 : l.length - 100 = 1 := by omega
  rw [hdrop1] at hmem'
  have hsorted : l.Sorted (· < ·) := Finset.sort_sorted_lt T
  cases hlc : l with
  | nil => rw [hlc] at hlen; simp at hlen
  | cons x rest =>
    rw [hlc, List.drop_one, List.tail_cons] at hmem'
    have hxlt : x < "a" := by
      have hp := hsorted
      rw [hlc, List.sorted_cons] at hp
      exact hp.1 _ hmem'
    have hxT : x ∈ T := by
      have hx : x ∈ l := by rw [hlc]; exact List.mem_cons_self _ _
      rw [hl, sortedEnum] at hx
      exact (Finset.mem_sort _).mp hx
    have hax : "a" ≤ x := by
      rcases Finset.mem_insert.mp (hT ▸ hxT) with h | h
      · exact le_of_eq h.symm
      · rw [load_stale_searches] at h
        obtain ⟨i, _, hi⟩ := List.mem_map.mp (List.mem_toFinset.mp h)
        rw [← hi]
        exact le_of_lt (string_a_lt_b_append (toString i))
    exact absurd (lt_of_le_of_lt hax hxlt) (lt_irrefl _)

/-- C10 (amended): after every blacklisting call the persisted stale list
has no duplicates, has at most 100 entries, and contains only the new
handle and previously stored handles; the just-blacklisted handle is
guaranteed to be contained only when the loaded blacklist has at most 99
entries — at 100, which element the truncation drops depends on the
unspecified set enumeration order. -/
theorem C10_blacklist_invariants (enum : Finset String → List String)
    (henum : ∀ s : Finset String, (enum s).Nodup ∧ ∀ x, x ∈ enum s ↔ x ∈ s)
    (cache_key : String) (stored : List String) :
    (mark_search_as_stale enum cache_key stored).Nodup ∧
    (mark_search_as_stale enum cache_key stored).length ≤ 100 ∧
    (∀ x ∈ mark_search_as_stale enum cache_key stored, x = cache_key ∨ x ∈ stored) ∧
    ((load_stale_searches stored).card ≤ 99 →
      cache_key ∈ mark_search_as_stale enum cache_key stored) := by
  have hnodup := (henum (insert cache_key (load_stale_searches stored))).1
  have hmem := (henum (insert cache_key (load_stale_searches stored))).2
  set l := enum (insert cache_key (load_stale_searches stored)) with hl
  have hdrop_sub : List.Sublist (l.drop (l.length - 100)) l := List.drop_sublist _ _
  refine ⟨hnodup.sublist hdrop_sub, ?_, ?_, ?_⟩
  · rw [mark_search_as_stale, ← hl, List.length_drop]
    omega
  · intro x hx
    have hxl : x ∈ l := List.mem_of_mem_drop hx
    rcases Finset.mem_insert.mp ((hmem x).mp hxl) with h | h
    · exact Or.inl h
    · exact Or.inr (List.mem_toFinset.mp h)
  · intro hcard
    have hcard' : (insert cache_key (load_stale_searches stored)).card ≤ 100 := by
      calc (insert cache_key (load_stale_searches stored)).card
          ≤ (load_stale_searches stored).card + 1 := Finset.card_insert_le _ _
        _ ≤ 100 := by omega
    have hlen : l.length ≤ 100 := by
      have hfs : l.toFinset = insert cache_key (load_stale_searches stored) :=
        Finset.ext (fun x => by rw [List.mem_toFinset]; exact hmem x)
      have hcount := List.toFinset_card_of_nodup hnodup
      rw [hfs] at hcount
      omega
    have hzero : l.length - 100 = 0 := by omega
    rw [mark_search_as_stale, ← hl, hzero, List.drop_zero]
    exact (hmem cache_key).mpr (Finset.mem_insert_self _ _)

/-- Witness for C10: blacklisting into a one-entry store keeps the new
handle. -/
theorem C10_blacklist_invariants_witness :
    "a" ∈ mark_search_as_stale sortedEnum "a" ["b"] :=
  (C10_blacklist_invariants sortedEnum
    (fun s => ⟨sortedEnum_nodup s, sortedEnum_mem s⟩) "a" ["b"]).2.2.2 (by decide)

/-! ## BrowserHistoryReader merge
(`extract_chemicals.py`, `get_pubchem_history_details`) -/

/-- A normalized browser-history record as produced by
`_parse_history_entries`. Only the fields read by the merge logic are
modelled (`timestamp_display`, `list_size`, `type`, `domain`, `url` are
carried along unchanged by the source and omitted here); `timestamp` is the
ISO string or Python `None`. -/
structure HistoryEntry where
  name : String
  cachekey : String
  timestamp : Option String
  browser : String
deriving DecidableEq, Repr

/-- The sort/compare key `entry["timestamp"] or ""`. -/
def tsKey (t : Option String) : String := t.getD ""

theorem dinsert_of_lookup_none {α : Type} {m : List (String × α)} {k : String} (v : α)
    (h : dlookup m k = none) : dinsert m k v = m ++ [(k, v)] := by
  rw [dinsert]
  have hf : m.find? (fun p => p.1 = k) = none := by
    rw [dlookup] at h
    exact Option.map_eq_none'.mp h
  rw [hf]
  simp

theorem dinsert_of_lookup_some {α : Type} {m : List (String × α)} {k : String} {old : α} (v : α)
    (h : dlookup m k = some old) :
    dinsert m k v = m.map (fun p => if p.1 = k then (k, v) else p) := by
  rw [dinsert]
  have hf : (m.find? (fun p => p.1 = k)).isSome = true := by
    rw [dlookup] at h
    cases hfind : m.find? (fun p => p.1 = k) with
    | none => rw [hfind] at h; simp at h
    | some p => simp
  simp [hf]

/-- One iteration of the merge loop (extract_chemicals.py:388-391):
`if key not in seen or (entry["timestamp"] or "") > (seen[key]["timestamp"] or ""):
seen[key] = entry`. -/
def historyStep (seen : List (String × HistoryEntry)) (e : HistoryEntry) :
    List (String × HistoryEntry) :=
  match dlookup seen e.cachekey with
  | none => dinsert seen e.cachekey e
  | some old =>
      if tsKey old.timestamp < tsKey e.timestamp then dinsert seen e.cachekey e else seen

/-- The `seen` dict after the whole merge loop. -/
def mergeHistory (entries : List HistoryEntry) : List (String × HistoryEntry) :=
  entries.foldl historyStep []

/-- The concatenated, browser-tagged source records
(extract_chemicals.py:377-388): Firefox entries first, then Chrome. -/
def historySources (firefox chrome : List HistoryEntry) : List HistoryEntry :=
  firefox.map (fun e => { e with browser := "Firefox" })
    ++ chrome.map (fun e => { e with browser := "Chrome" })

/-- `get_pubchem_history_details` (extract_chemicals.py:370-396): merge,
deduplicate by cachekey (newest timestamp wins), then stable-sort newest
first by `timestamp or ""`. -/
def get_pubchem_history_details (firefox chrome : List HistoryEntry) : List HistoryEntry :=
  let merged := (mergeHistory (historySources firefox chrome)).map Prod.snd
  merged.mergeSort (fun a b => decide (tsKey b.timestamp ≤ tsKey a.timestamp))

/-- `get_latest_pubchem_history_cachekey` (extract_chemicals.py:352-367). -/
def get_latest_pubchem_history_cachekey (firefox chrome : List HistoryEntry) :
    Option String :=
  (get_pubchem_history_details firefox chrome).head?.map (fun e => e.cachekey)

/-- Invariant of the merge loop: after processing `processed`, the `seen`
dict maps each cachekey of `processed` to a processed entry with that key
carrying the maximal `timestamp or ""` among them. -/
def HistInv (processed : List HistoryEntry) (acc : List (String × HistoryEntry)) : Prop :=
  (∀ p ∈ acc, p.2.cachekey = p.1) ∧
  (acc.map Prod.fst).Nodup ∧
  (∀ p ∈ acc, p.2 ∈ processed) ∧
  (∀ p ∈ acc, ∀ e ∈ processed, e.cachekey = p.1 →
    tsKey e.timestamp ≤ tsKey p.2.timestamp) ∧
  (∀ e ∈ processed, ∃ p ∈ acc, p.1 = e.cachekey)

theorem histStep_inv (processed : List HistoryEntry)
    (acc : List (String × HistoryEntry)) (e : HistoryEntry)
    (h : HistInv processed acc) : HistInv (processed ++ [e]) (historyStep acc e) := by
  obtain ⟨I1, I2, I3, I4, I5⟩ := h
  have huniq : ∀ p ∈ acc, ∀ q ∈ acc, p.1 = q.1 → p = q := by
    intro p hp q hq hk
    exact List.inj_on_of_nodup_map I2 hp hq hk
  cases hdl : dlookup acc e.cachekey with
  | none =>
    have hstep : historyStep acc e = acc ++ [(e.cachekey, e)] := by
      rw [historyStep, hdl]
      exact dinsert_of_lookup_none e hdl
    rw [hstep]
    have hknot : ∀ p ∈ acc, p.1 ≠ e.cachekey := dlookup_eq_none.mp hdl
    refine ⟨?_, ?_, ?_, ?_, ?_⟩
    · intro p hp
      rcases List.mem_append.mp hp with hpa | hpn
      · exact I1 p hpa
      · rw [List.mem_singleton.mp hpn]
    · rw [List.map_append, List.nodup_append]
      refine ⟨I2, List.nodup_singleton _, ?_⟩
      intro k hk hk'
      rcases List.mem_map.mp hk with ⟨p, hp, rfl⟩
      simp only [List.map_cons, List.map_nil, List.mem_singleton] at hk'
      exact hknot p hp hk'
    · intro p hp
      rcases List.mem_append.mp hp with hpa | hpn
      · exact List.mem_append_left _ (I3 p hpa)
      · rw [List.mem_singleton.mp hpn]
        exact List.mem_append_right _ (List.mem_singleton_self _)
    · intro p hp e' he' hkey
      rcases List.mem_append.mp he' with he'p | he's
      · rcases List.mem_append.mp hp with hpa | hpn
        · exact I4 p hpa e' he'p hkey
        · obtain ⟨q, hq, hqk⟩ := I5 e' he'p
          rw [List.mem_singleton.mp hpn] at hkey
          exact absurd (hqk.trans hkey) (hknot q hq)
      · have heq : e' = e := List.mem_singleton.mp he's
        rcases List.mem_append.mp hp with hpa | hpn
        · rw [heq] at hkey
          exact absurd hkey.symm (hknot p hpa)
        · rw [heq, List.mem_singleton.mp hpn]
    · intro e' he'
      rcases List.mem_append.mp he' with he'p | he's
      · obtain ⟨q, hq, hqk⟩ := I5 e' he'p
        exact ⟨q, List.mem_append_left _ hq, hqk⟩
      · rw [List.mem_singleton.mp he's]
        exact ⟨(e.cachekey, e), List.mem_append_right _ (List.mem_singleton_self _), rfl⟩
  | some old =>
    have hold_mem : (e.cachekey, old) ∈ acc := dlookup_mem hdl
    by_cases hlt : tsKey old.timestamp < tsKey e.timestamp
    · have hstep : historyStep acc e
          = acc.map (fun p => if p.1 = e.cachekey then (e.cachekey, e) else p) := by
        rw [historyStep, hdl]
        show (if tsKey old.timestamp < tsKey e.timestamp
          then dinsert acc e.cachekey e else acc) = _
        rw [if_pos hlt]
        exact dinsert_of_lookup_some e hdl
      rw [hstep]
      set g := fun p : String × HistoryEntry =>
        if p.1 = e.cachekey then (e.cachekey, e) else p with hg
      have hgfst : ∀ p : String × HistoryEntry, (g p).1 = p.1 := by
        intro p
        rw [hg]
        by_cases hpk : p.1 = e.cachekey
        · simp [hpk]
        · simp [hpk]
      refine ⟨?_, ?_, ?_, ?_, ?_⟩
      · intro p hp
        rcases List.mem_map.mp hp with ⟨q, hq, rfl⟩
        rw [hg]
        by_cases hqk : q.1 = e.cachekey
        · simp [hqk]
        · simp only [hqk, ite_false]
          exact I1 q hq
      · have hmapeq : (acc.map g).map Prod.fst = acc.map Prod.fst := by
          rw [List.map_map]
          exact List.map_congr_left (fun p _ => hgfst p)
        rw [hmapeq]
        exact I2
      · intro p hp
        rcases List.mem_map.mp hp with ⟨q, hq, rfl⟩
        rw [hg]
        by_cases hqk : q.1 = e.cachekey
        · simp only [hqk, ite_true]
          exact List.mem_append_right _ (List.mem_singleton_self _)
        · simp only [hqk, ite_false]
          exact List.mem_append_left _ (I3 q hq)
      · intro p hp e' he' hkey
        rcases List.mem_map.mp hp with ⟨q, hq, rfl⟩
        by_cases hqk : q.1 = e.cachekey
        · have hgq : g q = (e.cachekey, e) := by rw [hg]; simp [hqk]
          rw [hgq] at hkey ⊢
          rcases List.mem_append.mp he' with he'p | he's
          · exact le_trans (I4 _ hold_mem e' he'p hkey) (le_of_lt hlt)
          · rw [List.mem_singleton.mp he's]
        · have hgq : g q = q := by rw [hg]; simp [hqk]
          rw [hgq] at hkey ⊢
          rcases List.mem_append.mp he' with he'p | he's
          · exact I4 q hq e' he'p hkey
          · rw [List.mem_singleton.mp he's] at hkey
            exact absurd hkey.symm hqk
      · intro e' he'
        rcases List.mem_append.mp he' with he'p | he's
        · obtain ⟨q, hq, hqk⟩ := I5 e' he'p
          exact ⟨g q, List.mem_map_of_mem g hq, (hgfst q).trans hqk⟩
        · rw [List.mem_singleton.mp he's]
          refine ⟨(e.cachekey, e), ?_, rfl⟩
          have hmm : g (e.cachekey, old) = (e.cachekey, e) := by rw [hg]; simp
          exact hmm ▸ List.mem_map_of_mem g hold_mem
    · have hstep : historyStep acc e = acc := by
        rw [historyStep, hdl]
        show (if tsKey old.timestamp < tsKey e.timestamp
          then dinsert acc e.cachekey e else acc) = acc
        rw [if_neg hlt]
      rw [hstep]
      have hle : tsKey e.timestamp ≤ tsKey old.timestamp := le_of_not_lt hlt
      refine ⟨I1, I2, ?_, ?_, ?_⟩
      · intro p hp
        exact List.mem_append_left _ (I3 p hp)
      · intro p hp e' he' hkey
        rcases List.mem_append.mp he' with he'p | he's
        · exact I4 p hp e' he'p hkey
        · have heq : e' = e := List.mem_singleton.mp he's
          rw [heq] at hkey
          have hp_old : p = (e.cachekey, old) :=
            huniq p hp _ hold_mem (by rw [← hkey])
          rw [heq, hp_old]
          exact hle
      · intro e' he'
        rcases List.mem_append.mp he' with he'p | he's
        · obtain ⟨q, hq, hqk⟩ := I5 e' he'p
          exact ⟨q, hq, hqk⟩
        · rw [List.mem_singleton.mp he's]
          exact ⟨(e.cachekey, old), hold_mem, rfl⟩

theorem histFold_inv (l : List HistoryEntry) :
    ∀ (processed : List HistoryEntry) (acc : List (String × HistoryEntry)),
      HistInv processed acc → HistInv (processed ++ l) (l.foldl historyStep acc) := by
  induction l with
  | nil =>
    intro processed acc h
    simpa using h
  | cons e l ih =>
    intro processed acc h
    have h1 := histStep_inv processed acc e h
    have h2 := ih (processed ++ [e]) _ h1
    rw [List.append_assoc] at h2
    simpa using h2

theorem mergeHistory_inv (entries : List HistoryEntry) :
    HistInv entries (mergeHistory entries) := by
  have h0 : HistInv [] [] := by
    refine ⟨?_, ?_, ?_, ?_, ?_⟩ <;> simp [HistInv]
  have := histFold_inv entries [] [] h0
  simpa [mergeHistory] using this

/-- C6: the merged browser history contains exactly one entry per handle
(cachekeys are pairwise distinct, every source handle is represented, every
output entry is a source record), and when exactly two source records share
a handle with different timestamps, the merged entry for that handle
carries the maximum of the two timestamps. -/
theorem C6_history_merge_dedup_max (firefox chrome : List HistoryEntry) :
    ((get_pubchem_history_details firefox chrome).map (fun e => e.cachekey)).Nodup ∧
    (∀ e ∈ historySources firefox chrome,
      ∃ e' ∈ get_pubchem_history_details firefox chrome, e'.cachekey = e.cachekey) ∧
    (∀ e' ∈ get_pubchem_history_details firefox chrome,
      e' ∈ historySources firefox chrome) ∧
    (∀ e1 e2, e1 ∈ historySources firefox chrome → e2 ∈ historySources firefox chrome →
      e1.cachekey = e2.cachekey →
      tsKey e1.timestamp ≠ tsKey e2.timestamp →
      ∀ e' ∈ get_pubchem_history_details firefox chrome, e'.cachekey = e1.cachekey →
        (∀ s ∈ historySources firefox chrome, s.cachekey = e1.cachekey → s = e1 ∨ s = e2) →
        tsKey e'.timestamp = max (tsKey e1.timestamp) (tsKey e2.timestamp)) := by
  obtain ⟨I1, I2, I3, I4, I5⟩ := mergeHistory_inv (historySources firefox chrome)
  set src := historySources firefox chrome with hsrc
  set acc := mergeHistory src with hacc
  have hperm : List.Perm (get_pubchem_history_details firefox chrome) (acc.map Prod.snd) := by
    rw [get_pubchem_history_details]
    exact List.mergeSort_perm _ _
  have hmem_out : ∀ x, x ∈ get_pubchem_history_details firefox chrome ↔
      x ∈ acc.map Prod.snd := fun x => hperm.mem_iff
  refine ⟨?_, ?_, ?_, ?_⟩
  · have hmapeq : (acc.map Prod.snd).map (fun e => e.cachekey) = acc.map Prod.fst := by
      rw [List.map_map]
      exact List.map_congr_left (fun p hp => I1 p hp)
    have hpermmap := hperm.map (fun e => e.cachekey)
    rw [hmapeq] at hpermmap
    exact hpermmap.nodup_iff.mpr I2
  · intro e he
    obtain ⟨q, hq, hqk⟩ := I5 e he
    refine ⟨q.2, (hmem_out q.2).mpr (List.mem_map_of_mem Prod.snd hq), ?_⟩
    rw [I1 q hq, hqk]
  · intro e' he'
    rcases List.mem_map.mp ((hmem_out e').mp he') with ⟨q, hq, rfl⟩
    exact I3 q hq
  · intro e1 e2 he1 he2 hk12 hts e' he' hk' honly
    rcases List.mem_map.mp ((hmem_out e').mp he') with ⟨q, hq, rfl⟩
    have hqkey : q.1 = e1.cachekey := by rw [← I1 q hq, hk']
    have hmax1 : tsKey e1.timestamp ≤ tsKey q.2.timestamp :=
      I4 q hq e1 he1 (hqkey.symm)
    have hmax2 : tsKey e2.timestamp ≤ tsKey q.2.timestamp :=
      I4 q hq e2 he2 (by rw [← hk12, hqkey])
    rcases honly q.2 (I3 q hq) hk' with hq1 | hq2
    · rw [hq1]
      rw [hq1] at hmax2
      exact (max_eq_left hmax2).symm
    · rw [hq2]
      rw [hq2] at hmax1
      exact (max_eq_right hmax1).symm

/-- A concrete Firefox history record for the C6 witness. -/
def histFF : HistoryEntry :=
  { name := "aspirin", cachekey := "k1",
    timestamp := some "2024-01-01T00:00:00", browser := "" }

/-- A concrete Chrome history record for the C6 witness, same handle,
newer timestamp. -/
def histCH : HistoryEntry :=
  { name := "aspirin", cachekey := "k1",
    timestamp := some "2024-01-02T00:00:00", browser := "" }

/-- Witness for C6: merging one Firefox and one Chrome record sharing
handle `"k1"` yields an entry for `"k1"` carrying the newer timestamp. -/
theorem C6_history_merge_dedup_max_witness :
    ∃ e' ∈ get_pubchem_history_details [histFF] [histCH],
      e'.cachekey = "k1" ∧
      tsKey e'.timestamp = max (tsKey histFF.timestamp) (tsKey histCH.timestamp) := by
  obtain ⟨h1, h2, h3, h4⟩ := C6_history_merge_dedup_max [histFF] [histCH]
  obtain ⟨e', he', hk⟩ := h2 { histFF with browser := "Firefox" } (by decide)
  refine ⟨e', he', hk.trans (by decide), ?_⟩
  exact h4 { histFF with browser := "Firefox" } { histCH with browser := "Chrome" }
    (by decide) (by decide) (by decide) (by decide) e' he' hk (by decide)

/-! ## Multi-tier resolution (`extract_chemicals.py`,
`lookup_cas_to_cid_optimized` and helpers) -/

/-- One resolution outcome `{status, cid}`. -/
structure ResEntry where
  status : String
  cid : Option Nat
deriving DecidableEq, Repr

/-- `_format_results` (extract_chemicals.py:871-879) on one value. -/
def formatEntry (cid : Option Nat) : ResEntry :=
  match cid with
  | some c => { status := "found", cid := some c }
  | none => { status := "not_found", cid := none }

/-- `_format_results`: map every CID value to its `{status, cid}` record. -/
def format_results (cid_map : List (String × Option Nat)) : List (String × ResEntry) :=
  cid_map.map (fun p => (p.1, formatEntry p.2))

/-- The CTS-then-PubChem network outcome for one identifier: the CTS answer
when CTS found a CID, otherwise the PubChem-fallback answer (either may be
`none`). -/
def netResult (cts pubchem : String → Option Nat) (cas : String) : Option Nat :=
  match cts cas with
  | some v => some v
  | none => pubchem cas

/-- `lookup_cas_to_cid_async` (extract_chemicals.py:792-815): CTS batch
first; identifiers CTS answered with a CID are kept, the rest go to the
PubChem async fallback; the two result dicts have disjoint key sets and are
merged. The network is the pair of oracles `cts`, `pubchem`. -/
def lookup_cas_to_cid_async (cts pubchem : String → Option Nat)
    (cas_numbers : List String) : List (String × Option Nat) :=
  let cts_results := cas_numbers.map (fun c => (c, cts c))
  let found_in_cts := cts_results.filter (fun p => p.2.isSome)
  let still_missing := cas_numbers.filter (fun c => (cts c).isNone)
  let pubchem_results := still_missing.map (fun c => (c, pubchem c))
  found_in_cts ++ pubchem_results

/-- The association list a Python dict comprehension
`{c: g(c) for c in l if <g defined at c>}` builds (first occurrence of a
key wins for lookups). -/
def assocOf {α : Type} (l : List String) (g : String → Option α) : List (String × α) :=
  l.filterMap (fun c => (g c).map (fun v => (c, v)))

/-- The identifiers surviving tier 1 (`remaining` after the dump layer,
extract_chemicals.py:835). -/
def tier2_input (dump : List (String × Nat)) (cas_numbers : List String) : List String :=
  cas_numbers.filter (fun c => (dlookup dump c).isNone)

/-- The identifiers surviving tiers 1-2 (`remaining` after the cache layer,
extract_chemicals.py:845); these are the only ones sent to the network. -/
def tier3_input (dump : List (String × Nat)) (cache : List (String × Option Nat))
    (cas_numbers : List String) : List String :=
  (tier2_input dump cas_numbers).filter (fun c => (dlookup cache c).isNone)

/-- `lookup_cas_to_cid_optimized` (extract_chemicals.py:818-868): dump
layer, cache layer, then the async network layers; afterwards every network
result — resolved or not — is written into the cache dict, which is saved.
Returns (formatted results, persisted cache content); on the two early
returns no `save_cache` happens and the persisted cache stays `cache0`. -/
def lookup_cas_to_cid_optimized (dump : List (String × Nat))
    (cache0 : List (String × Option Nat)) (cts pubchem : String → Option Nat)
    (cas_numbers : List String) :
    List (String × ResEntry) × List (String × Option Nat) :=
  let from_dump : List (String × Option Nat) :=
    assocOf cas_numbers (fun c => (dlookup dump c).map (fun v => some v))
  let remaining := tier2_input dump cas_numbers
  if remaining = [] then (format_results from_dump, cache0)
  else
    let from_cache : List (String × Option Nat) :=
      assocOf remaining (fun c => dlookup cache0 c)
    let remaining2 := tier3_input dump cache0 cas_numbers
    if remaining2 = [] then (format_results (from_dump ++ from_cache), cache0)
    else
      let new_results := lookup_cas_to_cid_async cts pubchem remaining2
      let all_cids := from_dump ++ from_cache ++ new_results
      let cache1 := new_results.foldl (fun m p => dinsert m p.1 p.2) cache0
      (format_results all_cids, cache1)

theorem dlookup_cons {α : Type} (c : String) (v : α) (m : List (String × α)) (k : String) :
    dlookup ((c, v) :: m) k = if c = k then some v else dlookup m k := by
  by_cases hck : c = k
  · rw [if_pos hck, dlookup, List.find?_cons_of_pos _ (by simp [hck])]
    rfl
  · rw [if_neg hck, dlookup, List.find?_cons_of_neg _ (by simp [hck]), dlookup]

theorem dlookup_append {α : Type} (m1 m2 : List (String × α)) (k : String) :
    dlookup (m1 ++ m2) k
      = match dlookup m1 k with
        | some v => some v
        | none => dlookup m2 k := by
  rw [dlookup, List.find?_append]
  cases h : m1.find? (fun p => p.1 = k) with
  | none => rw [dlookup, h]; simp [Option.or, dlookup]
  | some p => rw [dlookup, h]; simp [Option.or]

theorem dlookup_assocOf {α : Type} (l : List String) (g : String → Option α) (k : String) :
    dlookup (assocOf l g) k = if k ∈ l then g k else none := by
  induction l with
  | nil => simp [assocOf, dlookup]
  | cons c l ih =>
    by_cases hck : c = k
    · subst hck
      cases hg : g c with
      | none =>
        have hstep : assocOf (c :: l) g = assocOf l g := by
          simp [assocOf, List.filterMap_cons, hg]
        rw [hstep, ih]
        by_cases hmem : c ∈ l
        · simp [hmem, hg]
        · simp [hmem, hg]
      | some v =>
        have hstep : assocOf (c :: l) g = (c, v) :: assocOf l g := by
          simp [assocOf, List.filterMap_cons, hg]
        rw [hstep, dlookup_cons]
        simp [hg]
    · cases hg : g c with
      | none =>
        have hstep : assocOf (c :: l) g = assocOf l g := by
          simp [assocOf, List.filterMap_cons, hg]
        rw [hstep, ih]
        simp [List.mem_cons, hck, Ne.symm hck]
      | some v =>
        have hstep : assocOf (c :: l) g = (c, v) :: assocOf l g := by
          simp [assocOf, List.filterMap_cons, hg]
        rw [hstep, dlookup_cons, if_neg hck, ih]
        simp [List.mem_cons, Ne.symm hck]

theorem dlookup_format_results (m : List (String × Option Nat)) (k : String) :
    dlookup (format_results m) k = (dlookup m k).map formatEntry := by
  rw [format_results, dlookup, List.find?_map]
  have hpred : ((fun p : String × ResEntry => decide (p.1 = k)) ∘
      (fun p : String × Option Nat => (p.1, formatEntry p.2)))
      = fun p : String × Option Nat => decide (p.1 = k) := by
    funext p
    rfl
  rw [hpred, dlookup]
  cases m.find? (fun p => p.1 = k) <;> rfl

theorem dlookup_dinsert_self {α : Type} (m : List (String × α)) (k : String) (v : α) :
    dlookup (dinsert m k v) k = some v := by
  rw [dinsert]
  by_cases hf : (m.find? (fun p => p.1 = k)).isSome
  · rw [if_pos hf]
    rw [dlookup, List.find?_map]
    have hpred : ((fun p : String × α => decide (p.1 = k)) ∘
        (fun p : String × α => if p.1 = k then (k, v) else p))
        = fun p : String × α => decide (p.1 = k) := by
      funext p
      by_cases hpk : p.1 = k <;> simp [hpk]
    rw [hpred]
    cases hfind : m.find? (fun p => p.1 = k) with
    | none => rw [hfind] at hf; simp at hf
    | some q =>
      have hq : q.1 = k := by simpa using List.find?_some hfind
      simp [hq]
  · rw [if_neg hf]
    rw [dlookup, List.find?_append]
    cases hfind : m.find? (fun p => p.1 = k) with
    | some q => rw [hfind] at hf; simp at hf
    | none => simp [Option.or]
theorem dlookup_dinsert_other {α : Type} (m : List (String × α)) (k k' : String) (v : α)
    (hne : k' ≠ k) : dlookup (dinsert m k v) k' = dlookup m k' := by
  rw [dinsert]
  by_cases hf : (m.find? (fun p => p.1 = k)).isSome
  · rw [if_pos hf]
    rw [dlookup, List.find?_map]
    have hpred : ((fun p : String × α => decide (p.1 = k')) ∘
        (fun p : String × α => if p.1 = k then (k, v) else p))
        = fun p : String × α => decide (p.1 = k') := by
      funext p
      by_cases hpk : p.1 = k
      · simp [hpk]
      · simp [hpk]
    rw [hpred, dlookup]
    cases hfind : m.find? (fun p => p.1 = k') with
    | none => rfl
    | some q =>
      have hq : q.1 = k' := by simpa using List.find?_some hfind
      have hqk : ¬(q.1 = k) := by rw [hq]; exact hne
      simp [hqk]
  · rw [if_neg hf]
    rw [dlookup, List.find?_append, dlookup]
    cases hfind : m.find? (fun p => p.1 = k') with
    | some q => simp [Option.or]
    | none =>
      simp only [Option.or]
      rw [List.find?_cons_of_neg _ (by simp [Ne.symm hne]), List.find?_nil]

theorem dlookup_foldl_dinsert {α : Type} (l : List (String × α)) (m0 : List (String × α))
    (k : String) :
    dlookup (l.foldl (fun m p => dinsert m p.1 p.2) m0) k
      = match l.reverse.find? (fun p => p.1 = k) with
        | some p => some p.2
        | none => dlookup m0 k := by
  induction l generalizing m0 with
  | nil => simp
  | cons q l ih =>
    rw [List.foldl_cons, ih, List.reverse_cons, List.find?_append]
    cases hfind : l.reverse.find? (fun p => p.1 = k) with
    | some p => simp [Option.or]
    | none =>
      simp only [Option.or]
      by_cases hqk : q.1 = k
      · rw [List.find?_cons_of_pos _ (by simp [hqk])]
        show dlookup (dinsert m0 q.1 q.2) k = some q.2
        rw [hqk]
        exact dlookup_dinsert_self m0 k q.2
      · rw [List.find?_cons_of_neg _ (by simp [hqk]), List.find?_nil]
        exact dlookup_dinsert_other m0 q.1 k q.2 (fun h => hqk h.symm)

theorem async_entries (cts pubchem : String → Option Nat) (rem : List String) :
    (∀ p ∈ lookup_cas_to_cid_async cts pubchem rem,
      p.1 ∈ rem ∧ p.2 = netResult cts pubchem p.1) ∧
    (∀ c ∈ rem, ∃ p ∈ lookup_cas_to_cid_async cts pubchem rem, p.1 = c) := by
  constructor
  · intro p hp
    rcases List.mem_append.mp hp with hp | hp
    · rcases List.mem_filter.mp hp with ⟨hpm, hps⟩
      rcases List.mem_map.mp hpm with ⟨c, hc, rfl⟩
      simp only [Option.isSome] at hps
      refine ⟨hc, ?_⟩
      cases hcts : cts c with
      | none => rw [hcts] at hps; simp at hps
      | some v => simp [netResult, hcts]
    · rcases List.mem_map.mp hp with ⟨c, hc, rfl⟩
      rcases List.mem_filter.mp hc with ⟨hcm, hcn⟩
      simp only [Option.isNone] at hcn
      refine ⟨hcm, ?_⟩
      cases hcts : cts c with
      | none => simp [netResult, hcts]
      | some v => rw [hcts] at hcn; simp at hcn
  · intro c hc
    cases hcts : cts c with
    | some v =>
      refine ⟨(c, cts c), List.mem_append_left _ ?_, rfl⟩
      refine List.mem_filter.mpr ⟨List.mem_map_of_mem _ hc, ?_⟩
      simp [hcts]
    | none =>
      refine ⟨(c, pubchem c), List.mem_append_right _ ?_, rfl⟩
      refine List.mem_map_of_mem _ (List.mem_filter.mpr ⟨hc, ?_⟩)
      simp [hcts]

theorem dlookup_async (cts pubchem : String → Option Nat) (rem : List String)
    (k : String) (hk : k ∈ rem) :
    dlookup (lookup_cas_to_cid_async cts pubchem rem) k
      = some (netResult cts pubchem k) := by
  obtain ⟨hall, hex⟩ := async_entries cts pubchem rem
  obtain ⟨p, hp, hpk⟩ := hex k hk
  rw [dlookup]
  cases hfind : (lookup_cas_to_cid_async cts pubchem rem).find? (fun q => q.1 = k) with
  | none =>
    exfalso
    have : ((lookup_cas_to_cid_async cts pubchem rem).find?
        (fun q : String × Option Nat => decide (q.1 = k))).isSome := by
      rw [List.find?_isSome]
      exact ⟨p, hp, by simp [hpk]⟩
    rw [hfind] at this
    simp at this
  | some q =>
    have hqmem := List.mem_of_find?_eq_some hfind
    have hqk : q.1 = k := by simpa using List.find?_some hfind
    have hqv := (hall q hqmem).2
    rw [Option.map_some', hqv, hqk]

/-- The final per-identifier answer of the multi-tier lookup: the dump's
answer when the dump has one, else the cache's stored answer when the cache
has the key, else the network outcome — formatted as a `{status, cid}`
record. -/
theorem lookup_result_characterization (dump : List (String × Nat))
    (cache0 : List (String × Option Nat)) (cts pubchem : String → Option Nat)
    (cas_numbers : List String) (cas : String) (hmem : cas ∈ cas_numbers) :
    dlookup (lookup_cas_to_cid_optimized dump cache0 cts pubchem cas_numbers).1 cas
      = some (formatEntry (match dlookup dump cas with
          | some v => some v
          | none => match dlookup cache0 cas with
            | some w => w
            | none => netResult cts pubchem cas)) := by
  have hfd : dlookup (assocOf cas_numbers (fun c => (dlookup dump c).map (fun v => some v))) cas
      = (dlookup dump cas).map (fun v => some v) := by
    rw [dlookup_assocOf, if_pos hmem]
  simp only [lookup_cas_to_cid_optimized]
  by_cases h1 : tier2_input dump cas_numbers = []
  · rw [if_pos h1, dlookup_format_results, hfd]
    cases hd : dlookup dump cas with
    | some v => rfl
    | none =>
      exfalso
      have hr : cas ∈ tier2_input dump cas_numbers :=
        List.mem_filter.mpr ⟨hmem, by simp [hd]⟩
      rw [h1] at hr
      simp at hr
  · rw [if_neg h1]
    by_cases h2 : tier3_input dump cache0 cas_numbers = []
    · rw [if_pos h2, dlookup_format_results, dlookup_append, hfd]
      cases hd : dlookup dump cas with
      | some v => rfl
      | none =>
        rw [dlookup_assocOf]
        have hr : cas ∈ tier2_input dump cas_numbers :=
          List.mem_filter.mpr ⟨hmem, by simp [hd]⟩
        rw [if_pos hr]
        cases hc : dlookup cache0 cas with
        | some w => rfl
        | none =>
          exfalso
          have hr2 : cas ∈ tier3_input dump cache0 cas_numbers :=
            List.mem_filter.mpr ⟨hr, by simp [hc]⟩
          rw [h2] at hr2
          simp at hr2
    · rw [if_neg h2, dlookup_format_results, dlookup_append, dlookup_append, hfd]
      cases hd : dlookup dump cas with
      | some v => rfl
      | none =>
        rw [dlookup_assocOf]
        have hr : cas ∈ tier2_input dump cas_numbers :=
          List.mem_filter.mpr ⟨hmem, by simp [hd]⟩
        rw [if_pos hr]
        cases hc : dlookup cache0 cas with
        | some w => rfl
        | none =>
          have hr2 : cas ∈ tier3_input dump cache0 cas_numbers :=
            List.mem_filter.mpr ⟨hr, by simp [hc]⟩
          rw [dlookup_async cts pubchem _ cas hr2]
          rfl

/-- C7: when the bulk dump holds an answer for an identifier, the final
result is the dump's answer (status `found` with the dump's CID), whatever
the cache holds for the same identifier, and the identifier is excluded
from the inputs of the cache tier and of the network tiers. -/
theorem C7_dump_precedence (dump : List (String × Nat))
    (cache0 : List (String × Option Nat)) (cts pubchem : String → Option Nat)
    (cas_numbers : List String) (cas : String) (v : Nat)
    (hmem : cas ∈ cas_numbers) (hd : dlookup dump cas = some v) :
    dlookup (lookup_cas_to_cid_optimized dump cache0 cts pubchem cas_numbers).1 cas
        = some { status := "found", cid := some v } ∧
    cas ∉ tier2_input dump cas_numbers ∧
    cas ∉ tier3_input dump cache0 cas_numbers := by
  refine ⟨?_, ?_, ?_⟩
  · rw [lookup_result_characterization dump cache0 cts pubchem cas_numbers cas hmem, hd]
    rfl
  · intro hr
    have := (List.mem_filter.mp hr).2
    rw [hd] at this
    simp at this
  · intro hr
    have := (List.mem_filter.mp (List.mem_filter.mp hr).1).2
    rw [hd] at this
    simp at this

/-- Witness for C7: dump says CID 1, cache says CID 2 for the same
identifier — the result is the dump's CID 1. -/
theorem C7_dump_precedence_witness :
    dlookup (lookup_cas_to_cid_optimized [("50-00-0", 1)] [("50-00-0", some 2)]
        (fun _ => none) (fun _ => none) ["50-00-0"]).1 "50-00-0"
      = some { status := "found", cid := some 1 } :=
  (C7_dump_precedence [("50-00-0", 1)] [("50-00-0", some 2)]
    (fun _ => none) (fun _ => none) ["50-00-0"] "50-00-0" 1
    (by decide) (by decide)).1

/-- C2 counterexample: an identifier that no tier resolves (dump and cache
empty, both network oracles return nothing) is nevertheless written into
the persisted lookup cache, with a null CID. -/
theorem C2_counterexample_unresolved_written :
    (lookup_cas_to_cid_optimized [] [] (fun _ => none) (fun _ => none) ["50-00-0"]).2
      = [("50-00-0", none)] := by
  decide

/-- C2 (amended): every identifier that reaches the network tiers is
written into the persisted cache with its network outcome — including
`none` when it ended the run unresolved — and on a later run the identifier
is served from the cache (it is excluded from the network tier input)
instead of being retried. -/
theorem C2_unresolved_cached (dump : List (String × Nat))
    (cache0 : List (String × Option Nat)) (cts pubchem : String → Option Nat)
    (cas_numbers : List String) (cas : String)
    (hd : dlookup dump cas = none) (hc : dlookup cache0 cas = none)
    (hmem : cas ∈ cas_numbers) :
    dlookup (lookup_cas_to_cid_optimized dump cache0 cts pubchem cas_numbers).2 cas
      = some (netResult cts pubchem cas) ∧
    cas ∉ tier3_input dump
      (lookup_cas_to_cid_optimized dump cache0 cts pubchem cas_numbers).2 cas_numbers := by
  have hr : cas ∈ tier2_input dump cas_numbers :=
    List.mem_filter.mpr ⟨hmem, by simp [hd]⟩
  have hr2 : cas ∈ tier3_input dump cache0 cas_numbers :=
    List.mem_filter.mpr ⟨hr, by simp [hc]⟩
  have h1 : ¬(tier2_input dump cas_numbers = []) := by
    intro h
    rw [h] at hr
    simp at hr
  have h2 : ¬(tier3_input dump cache0 cas_numbers = []) := by
    intro h
    rw [h] at hr2
    simp at hr2
  have hout2 : (lookup_cas_to_cid_optimized dump cache0 cts pubchem cas_numbers).2
      = (lookup_cas_to_cid_async cts pubchem
          (tier3_input dump cache0 cas_numbers)).foldl
          (fun m p => dinsert m p.1 p.2) cache0 := by
    simp only [lookup_cas_to_cid_optimized]
    rw [if_neg h1, if_neg h2]
  have hcached : dlookup (lookup_cas_to_cid_optimized dump cache0 cts pubchem cas_numbers).2 cas
      = some (netResult cts pubchem cas) := by
    rw [hout2, dlookup_foldl_dinsert]
    obtain ⟨hall, hex⟩ := async_entries cts pubchem (tier3_input dump cache0 cas_numbers)
    obtain ⟨p, hp, hpk⟩ := hex cas hr2
    cases hfind : (lookup_cas_to_cid_async cts pubchem
        (tier3_input dump cache0 cas_numbers)).reverse.find? (fun q => q.1 = cas) with
    | none =>
      exfalso
      have hsome : ((lookup_cas_to_cid_async cts pubchem
          (tier3_input dump cache0 cas_numbers)).reverse.find?
          (fun q : String × Option Nat => decide (q.1 = cas))).isSome := by
        rw [List.find?_isSome]
        exact ⟨p, List.mem_reverse.mpr hp, by simp [hpk]⟩
      rw [hfind] at hsome
      simp at hsome
    | some q =>
      have hqmem := List.mem_reverse.mp (List.mem_of_find?_eq_some hfind)
      have hqk : q.1 = cas := by simpa using List.find?_some hfind
      have hqv := (hall q hqmem).2
      show some q.2 = some (netResult cts pubchem cas)
      rw [hqv, hqk]
  refine ⟨hcached, ?_⟩
  intro hbad
  have := (List.mem_filter.mp hbad).2
  rw [hcached] at this
  simp at this

/-- Witness for C2: the unresolved identifier `"50-00-0"` is retrievable
from the saved cache (as a null CID) after the run. -/
theorem C2_unresolved_cached_witness :
    dlookup (lookup_cas_to_cid_optimized [] [] (fun _ => none) (fun _ => none)
        ["50-00-0"]).2 "50-00-0"
      = some (netResult (fun _ => none) (fun _ => none) "50-00-0") :=
  (C2_unresolved_cached [] [] (fun _ => none) (fun _ => none) ["50-00-0"] "50-00-0"
    (by decide) (by decide) (by decide)).1

/-! ## Synchronous per-identifier PubChem lookup
(`extract_chemicals.py`, `lookup_cas_in_pubchem`) -/

/-- The outcome of one HTTP request in the synchronous loop: a response
with a status code and (for 200-responses) the parsed
`IdentifierList.CID` list, or a raised `requests` exception carrying the
exception type name. -/
inductive PResp where
  | http (status : Nat) (cids : List Nat)
  | err (name : String)
deriving DecidableEq, Repr

/-- The 200-response handling (extract_chemicals.py:1176-1181 and
1192-1198): first CID wins, an empty list is `no_cid`. -/
def parse200 (cids : List Nat) : ResEntry :=
  match cids with
  | [] => { status := "no_cid", cid := none }
  | c :: _ => { status := "found", cid := some c }

/-- One iteration of the `lookup_cas_in_pubchem` loop
(extract_chemicals.py:1169-1208) for a single identifier. `resps n` is the
server's answer to the n-th request issued for this identifier. Returns the
recorded result, the number of requests issued, and the list of back-off
waits (seconds) performed. The fixed `RATE_LIMIT_DELAY` sleep after each
identifier is not a back-off and is not recorded here. -/
def lookup_cas_single (resps : Nat → PResp) : ResEntry × Nat × List Nat :=
  match resps 0 with
  | .err e => ({ status := "error_" ++ e, cid := none }, 1, [])
  | .http s cids =>
    if s = 200 then (parse200 cids, 1, [])
    else if s = 404 then ({ status := "not_found", cid := none }, 1, [])
    else if s = 429 then
      match resps 1 with
      | .err e => ({ status := "error_" ++ e, cid := none }, 2, [5])
      | .http s2 cids2 =>
        if s2 = 200 then (parse200 cids2, 2, [5])
        else ({ status := "error_" ++ toString s2, cid := none }, 2, [5])
    else ({ status := "error_" ++ toString s, cid := none }, 1, [])

/-- `lookup_cas_in_pubchem`: the whole loop, one oracle per identifier. -/
def lookup_cas_in_pubchem (resps : String → Nat → PResp) (cas_numbers : List String) :
    List (String × ResEntry) :=
  cas_numbers.map (fun cas => (cas, (lookup_cas_single (resps cas)).1))

/-- C9: a first response of HTTP 429 causes exactly one retry after a
single fixed 5-second back-off; when the retry is not HTTP 200 the
identifier is recorded with an error status; and no call sequence ever
issues more than two requests (at most one retry), a non-429 first
response issuing exactly one. -/
theorem C9_rate_limit_retry_once :
    (∀ resps : Nat → PResp, (lookup_cas_single resps).2.1 ≤ 2) ∧
    (∀ (resps : Nat → PResp) (cids : List Nat), resps 0 = .http 429 cids →
      (lookup_cas_single resps).2.1 = 2 ∧ (lookup_cas_single resps).2.2 = [5] ∧
      (∀ s2 cids2, resps 1 = .http s2 cids2 → s2 ≠ 200 →
        (lookup_cas_single resps).1 = { status := "error_" ++ toString s2, cid := none })) ∧
    (∀ (resps : Nat → PResp) (s : Nat) (cids : List Nat), resps 0 = .http s cids →
      s ≠ 429 → (lookup_cas_single resps).2.1 = 1) ∧
    (∀ (resps : Nat → PResp) (e : String), resps 0 = .err e →
      (lookup_cas_single resps).2.1 = 1) := by
  refine ⟨?_, ?_, ?_, ?_⟩
  · intro resps
    rw [lookup_cas_single]
    cases resps 0 with
    | err e => simp
    | http s cids =>
      by_cases h200 : s = 200
      · simp [h200]
      · by_cases h404 : s = 404
        · simp [h200, h404]
        · by_cases h429 : s = 429
          · simp only [h200, h404, h429, ite_false, ite_true]
            cases resps 1 with
            | err e => simp
            | http s2 cids2 => by_cases h2 : s2 = 200 <;> simp [h2]
          · simp [h200, h404, h429]
  · intro resps cids h0
    rw [lookup_cas_single, h0]
    refine ⟨?_, ?_, ?_⟩
    · simp only [ite_false, ite_true, Nat.reduceEqDiff]
      cases resps 1 with
      | err e => rfl
      | http s2 cids2 => by_cases h2 : s2 = 200 <;> simp [h2]
    · simp only [ite_false, ite_true, Nat.reduceEqDiff]
      cases resps 1 with
      | err e => rfl
      | http s2 cids2 => by_cases h2 : s2 = 200 <;> simp [h2]
    · intro s2 cids2 h1 hne
      simp only [ite_false, ite_true, Nat.reduceEqDiff]
      rw [h1]
      simp [hne]
  · intro resps s cids h0 hne
    rw [lookup_cas_single, h0]
    by_cases h200 : s = 200
    · simp [h200]
    · by_cases h404 : s = 404
      · simp [h200, h404]
      · simp [h200, h404, hne]
  · intro resps e h0
    rw [lookup_cas_single, h0]

/-- A concrete response sequence for the C9 witness: first 429, then 500. -/
def resp429then500 : Nat → PResp :=
  fun n => if n = 0 then .http 429 [] else .http 500 []

/-- Witness for C9: on 429 then 500, exactly two requests are issued, one
5-second back-off happens, and the recorded status is `error_500`. -/
theorem C9_rate_limit_retry_once_witness :
    (lookup_cas_single resp429then500).2.1 = 2 ∧
    (lookup_cas_single resp429then500).2.2 = [5] ∧
    (lookup_cas_single resp429then500).1
      = { status := "error_" ++ toString (500 : Nat), cid := none } := by
  have h := C9_rate_limit_retry_once.2.1 resp429then500 [] rfl
  exact ⟨h.1, h.2.1, h.2.2 500 [] rfl (by decide)⟩

/-! ## SetCombiner (`web_app.py`, `combine_pubchem`;
`extract_chemicals.py`, `upload_cids_to_pubchem_cache`,
`combine_pubchem_cache_keys`, `fetch_cids_from_listkey`) -/

/-- Python's `operation.upper()` for the ASCII operation strings
(`String.toUpper`'s `mapAux` is opaque to kernel reduction, so the map is
written over the character list directly). -/
def pyUpper (s : String) : String := ⟨s.data.map Char.toUpper⟩

/-- The three remote PubChem list-service calls the combiner makes, as
oracles: `upload` (`upload_cids_to_pubchem_cache`), `combine`
(`combine_pubchem_cache_keys`, returning `(combined_key, list_size)` or
`None`), and `deref` (`fetch_cids_from_listkey`, returning the CID list or
`None`). CIDs travel as decimal strings in the source and as naturals
here. -/
structure RemoteService where
  upload : List Nat → Option String
  combine : String → String → String → Option (String × Nat)
  deref : String → Option (List Nat)

/-- Modelled from the spec: the boolean combination the external PubChem
list-refinement service applies to two cache keys — the service itself is
external code, absent from src/. §4.8 submits `(user_handle, local_handle,
op)` and defines the whole combine operation's NOT as local-minus-remote,
so on argument order `(k1, k2)` the modelled NOT is (set of k2) minus
(set of k1); AND/OR are intersection/union. -/
def setOpModel (op : String) (s1 s2 : Finset Nat) : Finset Nat :=
  if op = "AND" then s1 ∩ s2
  else if op = "OR" then s1 ∪ s2
  else s2 \ s1

/-- Modelled from the spec: a remote service consistent with §4.8/§6 — an
upload materializes exactly the uploaded CIDs, and a successful combine
returns a key dereferencing to the §4.8 boolean combination of the two
input keys' sets, with `ListSize` its cardinality. -/
def RemoteService.WellBehaved (r : RemoteService) : Prop :=
  (∀ l k, r.upload l = some k →
    ∃ m, r.deref k = some m ∧ m.toFinset = l.toFinset) ∧
  (∀ k1 k2 op ck ls, r.combine k1 k2 op = some (ck, ls) →
    ∃ s1 s2 m, r.deref k1 = some s1 ∧ r.deref k2 = some s2 ∧
      r.deref ck = some m ∧
      m.toFinset = setOpModel op s1.toFinset s2.toFinset ∧
      ls = (setOpModel op s1.toFinset s2.toFinset).card)

/-- The JSON payloads `combine_pubchem` can return, as a sum type. -/
inductive CombineOutcome where
  | invalidOp
  | noSearchSelected
  | noCidResults
  | noCids
  | uploadFailed
  | staleSearch (cache_key : String) (search_name : String)
  | uploadCombinedFailed
  | combineFailed
  | zeroMatch (filter_id : String)
  | success (pubchem_url : String) (filter_id : Option String) (matching_cids : List Nat)
deriving DecidableEq, Repr

/-- `_lookup_search_name` (web_app.py:3189-3198): first matching history
entry's name, else the app-search metadata's stored query (its
missing-query default folded into the stored value), else
`"Unknown search"`. -/
def lookup_search_name (firefox chrome : List HistoryEntry)
    (appMeta : List (String × String)) (cache_key : String) : String :=
  match (get_pubchem_history_details firefox chrome).find?
      (fun e => e.cachekey = cache_key) with
  | some e => e.name
  | none =>
    match dlookup appMeta cache_key with
    | some q => q
    | none => "Unknown search"

/-- `cids = [str(r["cid"]) for r in cache["results"].values() if r.get("cid")]`
(web_app.py:3222): the CIDs of the result records whose `cid` is truthy
(present and nonzero). -/
def cidsOfResults (results : List (String × ResEntry)) : List Nat :=
  results.filterMap (fun p => match p.2.cid with
    | some c => if c ≠ 0 then some c else none
    | none => none)

/-- The local set-algebra fallback (web_app.py:3259-3266). -/
def localOp (operation : String) (our_set user_set : Finset Nat) : Finset Nat :=
  if operation = "AND" then our_set ∩ user_set
  else if operation = "OR" then our_set ∪ user_set
  else if operation = "NOT" then our_set \ user_set
  else (∅ : Finset Nat)

/-- The shared tail of `combine_pubchem` (web_app.py:3281-3337): the
zero-result branch (persist an empty FilterResult, no handle), else record
the combined key as app-generated, materialize the matching CIDs (locally
computed ones when the fallback ran, otherwise by dereferencing the
combined key, with the stale-user-search check on failure), and persist a
FilterResult when matches exist. Returns (outcome, filter store, keys
passed to `save_app_search`). -/
def combineFinish (remote : RemoteService) (firefox chrome : List HistoryEntry)
    (appMeta : List (String × String)) (operation user_key : String)
    (filters0 : List FilterResult) (newFilterId now : String)
    (combined_key : Option String) (list_size : Nat)
    (localMatching : Option (List Nat)) :
    CombineOutcome × List FilterResult × List String :=
  if list_size = 0 ∨ combined_key = none then
    (.zeroMatch newFilterId,
     save_filter_result filters0 newFilterId
       (lookup_search_name firefox chrome appMeta user_key) operation [] "" now,
     [])
  else
    match combined_key with
    | none => (.combineFailed, filters0, [])
    | some ck =>
      let url := "https://pubchem.ncbi.nlm.nih.gov/#query=" ++ ck
      match localMatching with
      | some m =>
        if m = [] then (.success url none m, filters0, [ck])
        else (.success url (some newFilterId) m,
          save_filter_result filters0 newFilterId
            (lookup_search_name firefox chrome appMeta user_key) operation m url now,
          [ck])
      | none =>
        match remote.deref ck with
        | some m =>
          if m = [] then (.success url none m, filters0, [ck])
          else (.success url (some newFilterId) m,
            save_filter_result filters0 newFilterId
              (lookup_search_name firefox chrome appMeta user_key) operation m url now,
            [ck])
        | none =>
          match remote.deref user_key with
          | none =>
            (.staleSearch user_key (lookup_search_name firefox chrome appMeta user_key),
             filters0, [ck])
          | some _ => (.combineFailed, filters0, [ck])

/-- `combine_pubchem` (web_app.py:3201-3337): validate the operation,
resolve the selected cache key (explicit or latest history), collect the
local CIDs, upload them, ask the remote to combine; on remote-combine
failure run the local fallback — stale check on the user key, local set
algebra, upload of a non-empty result. `Finset.sort` stands for Python's
`list(set)` (all claims about the result are set-level). The generated
filter id and timestamp are the parameters `newFilterId`, `now`. -/
def combine_pubchem (remote : RemoteService) (firefox chrome : List HistoryEntry)
    (appMeta : List (String × String)) (operation0 : String)
    (userKeyArg : Option String) (cidCache : Option (List (String × ResEntry)))
    (filters0 : List FilterResult) (newFilterId now : String) :
    CombineOutcome × List FilterResult × List String :=
  let operation := pyUpper operation0
  if ¬(operation = "AND" ∨ operation = "OR" ∨ operation = "NOT") then
    (.invalidOp, filters0, [])
  else
    match (match userKeyArg with
           | some k => some k
           | none => get_latest_pubchem_history_cachekey firefox chrome) with
    | none => (.noSearchSelected, filters0, [])
    | some user_key =>
      match cidCache with
      | none => (.noCidResults, filters0, [])
      | some results =>
        let cids := cidsOfResults results
        if cids = [] then (.noCids, filters0, [])
        else
          match remote.upload cids with
          | none => (.uploadFailed, filters0, [])
          | some our_key =>
            match remote.combine user_key our_key operation with
            | some (ck, ls) =>
              combineFinish remote firefox chrome appMeta operation user_key
                filters0 newFilterId now (some ck) ls none
            | none =>
              match remote.deref user_key with
              | none =>
                (.staleSearch user_key
                   (lookup_search_name firefox chrome appMeta user_key),
                 filters0, [])
              | some user_cids =>
                let result_cids := localOp operation cids.toFinset user_cids.toFinset
                let list_size := result_cids.card
                let localMatching := result_cids.sort (· ≤ ·)
                if 0 < list_size then
                  match remote.upload localMatching with
                  | none => (.uploadCombinedFailed, filters0, [])
                  | some ck =>
                    combineFinish remote firefox chrome appMeta operation user_key
                      filters0 newFilterId now (some ck) list_size (some localMatching)
                else
                  combineFinish remote firefox chrome appMeta operation user_key
                    filters0 newFilterId now none 0 (some localMatching)

/-- The concrete matching-CID set carried by a combine outcome, when the
outcome is a (possibly zero-match) result rather than an error. -/
def outcomeCids : CombineOutcome → Option (Finset Nat)
  | .zeroMatch _ => some ∅
  | .success _ _ m => some m.toFinset
  | _ => none

theorem save_filter_result_mem_new (prior : List FilterResult) (fid name op : String)
    (cids : List Nat) (url created : String) :
    filterEntry fid name op cids url created
      ∈ save_filter_result prior fid name op cids url created := by
  rw [save_filter_result]
  refine List.mem_append_right _ ?_
  have hfil : (filterEntry fid name op cids url created :: prior).filter (fun r => !r.saved)
      = filterEntry fid name op cids url created :: prior.filter (fun r => !r.saved) := by
    rw [List.filter_cons_of_pos]
    simp [filterEntry]
  rw [hfil]
  have htake : (filterEntry fid name op cids url created
      :: prior.filter (fun r => !r.saved)).take 10
      = filterEntry fid name op cids url created
        :: (prior.filter (fun r => !r.saved)).take 9 := rfl
  rw [htake]
  exact List.mem_cons_self _ _

/-- C4: in the local fallback (the remote combine call failed), a user
handle whose dereference fails is never used for any set algebra: the
operation returns the `stale_search` error carrying the handle and its
human-readable name, the filter store is untouched, and nothing is
recorded as an app search. -/
theorem C4_stale_handle_no_local_result (remote : RemoteService)
    (firefox chrome : List HistoryEntry) (appMeta : List (String × String))
    (operation0 : String) (uk our_key : String) (results : List (String × ResEntry))
    (filters0 : List FilterResult) (fid now : String)
    (hop : pyUpper operation0 = "AND" ∨ pyUpper operation0 = "OR" ∨
      pyUpper operation0 = "NOT")
    (hcids : cidsOfResults results ≠ [])
    (hup : remote.upload (cidsOfResults results) = some our_key)
    (hcomb : remote.combine uk our_key (pyUpper operation0) = none)
    (hderef : remote.deref uk = none) :
    combine_pubchem remote firefox chrome appMeta operation0 (some uk) (some results)
        filters0 fid now
      = (.staleSearch uk (lookup_search_name firefox chrome appMeta uk),
         filters0, []) := by
  simp only [combine_pubchem]
  rw [if_neg (not_not_intro hop)]
  simp only [hup, hcomb, hderef, if_neg hcids]

/-- C8: whenever the combination yields an empty result set — the remote
fast path reporting `ListSize` 0, or the local fallback computing an empty
set — the operation persists a FilterResult with an empty matching-id list
and an empty URL (no remote handle), and returns the zero-match outcome
rather than an error. -/
theorem C8_zero_match_persisted (remote : RemoteService)
    (firefox chrome : List HistoryEntry) (appMeta : List (String × String))
    (operation0 : String) (uk our_key : String) (results : List (String × ResEntry))
    (filters0 : List FilterResult) (fid now : String)
    (hop : pyUpper operation0 = "AND" ∨ pyUpper operation0 = "OR" ∨
      pyUpper operation0 = "NOT")
    (hcids : cidsOfResults results ≠ [])
    (hup : remote.upload (cidsOfResults results) = some our_key) :
    (∀ ck, remote.combine uk our_key (pyUpper operation0) = some (ck, 0) →
      combine_pubchem remote firefox chrome appMeta operation0 (some uk) (some results)
          filters0 fid now
        = (.zeroMatch fid,
           save_filter_result filters0 fid
             (lookup_search_name firefox chrome appMeta uk) (pyUpper operation0) [] "" now,
           []) ∧
      filterEntry fid (lookup_search_name firefox chrome appMeta uk)
          (pyUpper operation0) [] "" now
        ∈ (combine_pubchem remote firefox chrome appMeta operation0 (some uk)
            (some results) filters0 fid now).2.1) ∧
    (∀ user_cids : List Nat, remote.combine uk our_key (pyUpper operation0) = none →
      remote.deref uk = some user_cids →
      localOp (pyUpper operation0) (cidsOfResults results).toFinset user_cids.toFinset = ∅ →
      combine_pubchem remote firefox chrome appMeta operation0 (some uk) (some results)
          filters0 fid now
        = (.zeroMatch fid,
           save_filter_result filters0 fid
             (lookup_search_name firefox chrome appMeta uk) (pyUpper operation0) [] "" now,
           []) ∧
      filterEntry fid (lookup_search_name firefox chrome appMeta uk)
          (pyUpper operation0) [] "" now
        ∈ (combine_pubchem remote firefox chrome appMeta operation0 (some uk)
            (some results) filters0 fid now).2.1) := by
  constructor
  · intro ck hcomb
    have hout : combine_pubchem remote firefox chrome appMeta operation0 (some uk)
        (some results) filters0 fid now
        = (.zeroMatch fid,
           save_filter_result filters0 fid
             (lookup_search_name firefox chrome appMeta uk) (pyUpper operation0) [] "" now,
           []) := by
      simp only [combine_pubchem]
      rw [if_neg (not_not_intro hop)]
      simp only [hup, hcomb, if_neg hcids, combineFinish]
      simp
    refine ⟨hout, ?_⟩
    rw [hout]
    exact save_filter_result_mem_new filters0 fid _ _ [] "" now
  · intro user_cids hcomb hderef hempty
    have hout : combine_pubchem remote firefox chrome appMeta operation0 (some uk)
        (some results) filters0 fid now
        = (.zeroMatch fid,
           save_filter_result filters0 fid
             (lookup_search_name firefox chrome appMeta uk) (pyUpper operation0) [] "" now,
           []) := by
      simp only [combine_pubchem]
      rw [if_neg (not_not_intro hop)]
      simp only [hup, hcomb, hderef, if_neg hcids, hempty]
      rw [if_neg (by simp [Finset.card_empty] : ¬(0 < (∅ : Finset Nat).card))]
      simp only [combineFinish]
      simp
    refine ⟨hout, ?_⟩
    rw [hout]
    exact save_filter_result_mem_new filters0 fid _ _ [] "" now

/-- C1: for a NOT combination with the local CID set and the user-selected
remote set concretely known, the materialized result set is exactly
local-minus-remote on both paths — the remote-delegated fast path (under
the §4.8-modelled remote service) and the local set-algebra fallback path
(`our_cid_set - user_cid_set`) — never remote-minus-local. -/
theorem C1_not_local_minus_remote (remote : RemoteService)
    (firefox chrome : List HistoryEntry) (appMeta : List (String × String))
    (uk our_key : String) (results : List (String × ResEntry))
    (filters0 : List FilterResult) (fid now : String)
    (hwb : remote.WellBehaved)
    (hcids : cidsOfResults results ≠ [])
    (hup : remote.upload (cidsOfResults results) = some our_key) :
    (∀ ck ls, remote.combine uk our_key "NOT" = some (ck, ls) →
      ∃ us : List Nat, remote.deref uk = some us ∧
        outcomeCids (combine_pubchem remote firefox chrome appMeta "NOT" (some uk)
          (some results) filters0 fid now).1
          = some ((cidsOfResults results).toFinset \ us.toFinset)) ∧
    (∀ us : List Nat, remote.combine uk our_key "NOT" = none →
      remote.deref uk = some us →
      ((cidsOfResults results).toFinset \ us.toFinset = ∅ ∨
        (remote.upload
          (((cidsOfResults results).toFinset \ us.toFinset).sort (· ≤ ·))).isSome) →
      outcomeCids (combine_pubchem remote firefox chrome appMeta "NOT" (some uk)
        (some results) filters0 fid now).1
        = some ((cidsOfResults results).toFinset \ us.toFinset)) := by
  have hnot : pyUpper "NOT" = "NOT" := rfl
  have hvalid : ¬¬(pyUpper "NOT" = "AND" ∨ pyUpper "NOT" = "OR" ∨ pyUpper "NOT" = "NOT") :=
    not_not_intro (Or.inr (Or.inr hnot))
  have hsetop : ∀ a b : Finset Nat, setOpModel "NOT" a b = b \ a := by
    intro a b
    rw [setOpModel, if_neg (by decide), if_neg (by decide)]
  have hlocal : ∀ a b : Finset Nat, localOp "NOT" a b = a \ b := by
    intro a b
    rw [localOp, if_neg (by decide), if_neg (by decide), if_pos rfl]
  constructor
  · intro ck ls hcomb
    obtain ⟨s1, s2, m, hd1, hd2, hdck, hmfs, hls⟩ := hwb.2 uk our_key "NOT" ck ls hcomb
    obtain ⟨m2, hm2, hm2fs⟩ := hwb.1 (cidsOfResults results) our_key hup
    have hs2m2 : s2 = m2 := by
      rw [hd2] at hm2
      exact Option.some.inj hm2
    have hR : m.toFinset = (cidsOfResults results).toFinset \ s1.toFinset := by
      rw [hmfs, hsetop, hs2m2, hm2fs]
    refine ⟨s1, hd1, ?_⟩
    have hmain : combine_pubchem remote firefox chrome appMeta "NOT" (some uk)
        (some results) filters0 fid now
        = combineFinish remote firefox chrome appMeta "NOT" uk filters0 fid now
            (some ck) ls none := by
      simp only [combine_pubchem, hnot]
      rw [if_neg (by simp)]
      simp only [if_neg hcids, hup, hcomb]
    rw [hmain]
    by_cases hls0 : ls = 0
    · have hc0 : (setOpModel "NOT" s1.toFinset s2.toFinset).card = 0 :=
        hls.symm.trans hls0
      have hRempty : (cidsOfResults results).toFinset \ s1.toFinset = ∅ := by
        have := Finset.card_eq_zero.mp hc0
        rw [hsetop, hs2m2, hm2fs] at this
        exact this
      simp only [combineFinish]
      rw [if_pos (Or.inl hls0)]
      show some (∅ : Finset Nat) = some ((cidsOfResults results).toFinset \ s1.toFinset)
      rw [hRempty]
    · have hmne : m ≠ [] := by
        intro hnil
        apply hls0
        rw [hls, ← hmfs, hnil]
        simp
      simp only [combineFinish]
      rw [if_neg (by
        intro h
        rcases h with h | h
        · exact hls0 h
        · exact Option.noConfusion h)]
      simp only [hdck, if_neg hmne]
      show some m.toFinset = some ((cidsOfResults results).toFinset \ s1.toFinset)
      rw [hR]
  · intro us hcomb hderef hok
    simp only [combine_pubchem, hnot]
    rw [if_neg (by simp)]
    simp only [if_neg hcids, hup, hcomb, hderef, hlocal]
    set R := (cidsOfResults results).toFinset \ us.toFinset with hRdef
    by_cases hRe : R = ∅
    · rw [hRe]
      rw [if_neg (by simp)]
      simp only [combineFinish]
      simp [outcomeCids]
    · have hub : (remote.upload (R.sort (· ≤ ·))).isSome := hok.resolve_left hRe
      obtain ⟨ck2, hck2⟩ := Option.isSome_iff_exists.mp hub
      have hcard : 0 < R.card :=
        Finset.card_pos.mpr (Finset.nonempty_iff_ne_empty.mpr hRe)
      rw [if_pos hcard]
      simp only [hck2]
      simp only [combineFinish]
      rw [if_neg (by
        intro h
        rcases h with h | h
        · exact hRe (Finset.card_eq_zero.mp h)
        · exact Option.noConfusion h)]
      have hsne : R.sort (· ≤ ·) ≠ [] := by
        intro h
        apply hRe
        have hfs := Finset.sort_toFinset (· ≤ ·) R
        rw [h] at hfs
        simpa using hfs.symm
      simp only [if_neg hsne]
      show some ((R.sort (· ≤ ·)).toFinset) = some R
      rw [Finset.sort_toFinset]

/-- Concrete CID-cache results for the combiner witnesses: CIDs 1, 2, 3. -/
def wResults : List (String × ResEntry) :=
  [("64-17-5", { status := "found", cid := some 1 }),
   ("50-00-0", { status := "found", cid := some 2 }),
   ("67-56-1", { status := "found", cid := some 3 })]

/-- A remote service whose combine endpoint always fails (exercises the
local fallback): uploads of the local set and of the fallback result
succeed, the user handle dereferences to {2,3,4}. -/
def wRemoteFB : RemoteService :=
  { upload := fun l => if l = [1, 2, 3] then some "L" else if l = [1] then some "R" else none,
    combine := fun _ _ _ => none,
    deref := fun k =>
      if k = "U" then some [2, 3, 4]
      else if k = "L" then some [1, 2, 3]
      else if k = "R" then some [1] else none }

theorem wRemoteFB_wb : wRemoteFB.WellBehaved := by
  constructor
  · intro l k h
    simp only [wRemoteFB] at h ⊢
    by_cases h1 : l = [1, 2, 3]
    · rw [if_pos h1] at h
      injection h with hk
      subst hk
      exact ⟨[1, 2, 3], by decide, by rw [h1]⟩
    · rw [if_neg h1] at h
      by_cases h2 : l = [1]
      · rw [if_pos h2] at h
        injection h with hk
        subst hk
        exact ⟨[1], by decide, by rw [h2]⟩
      · rw [if_neg h2] at h
        exact Option.noConfusion h
  · intro k1 k2 op ck ls h
    exact Option.noConfusion h

/-- A remote service whose combine endpoint succeeds on
`("U", "L", "NOT")` with the §4.8 semantics (exercises the fast path). -/
def wRemoteFast : RemoteService :=
  { upload := fun l => if l = [1, 2, 3] then some "L" else none,
    combine := fun k1 k2 op =>
      if k1 = "U" ∧ k2 = "L" ∧ op = "NOT" then some ("C", 1) else none,
    deref := fun k =>
      if k = "U" then some [2, 3, 4]
      else if k = "L" then some [1, 2, 3]
      else if k = "C" then some [1] else none }

theorem wRemoteFast_wb : wRemoteFast.WellBehaved := by
  constructor
  · intro l k h
    simp only [wRemoteFast] at h ⊢
    by_cases h1 : l = [1, 2, 3]
    · rw [if_pos h1] at h
      injection h with hk
      subst hk
      exact ⟨[1, 2, 3], by decide, by rw [h1]⟩
    · rw [if_neg h1] at h
      exact Option.noConfusion h
  · intro k1 k2 op ck ls h
    simp only [wRemoteFast] at h
    by_cases h1 : k1 = "U" ∧ k2 = "L" ∧ op = "NOT"
    · rw [if_pos h1] at h
      obtain ⟨rfl, rfl, rfl⟩ := h1
      cases h
      exact ⟨[2, 3, 4], [1, 2, 3], [1], by decide, by decide, by decide, by decide, by decide⟩
    · rw [if_neg h1] at h
      exact Option.noConfusion h

/-- Witness for C1, both paths at local = {1,2,3}, remote = {2,3,4}: the
NOT result set is {1} = local minus remote, on the fallback path
(`wRemoteFB`) and on the fast path (`wRemoteFast`). -/
theorem C1_not_local_minus_remote_witness :
    outcomeCids (combine_pubchem wRemoteFB [] [] [] "NOT" (some "U") (some wResults)
        [] "f1" "t").1
      = some ((cidsOfResults wResults).toFinset \ ([2, 3, 4] : List Nat).toFinset) ∧
    outcomeCids (combine_pubchem wRemoteFast [] [] [] "NOT" (some "U") (some wResults)
        [] "f1" "t").1
      = some ((cidsOfResults wResults).toFinset \ ([2, 3, 4] : List Nat).toFinset) := by
  constructor
  · refine (C1_not_local_minus_remote wRemoteFB [] [] [] "U" "L" wResults [] "f1" "t"
      wRemoteFB_wb (by decide) (by decide)).2 [2, 3, 4] rfl (by decide) ?_
    right
    have hR : (cidsOfResults wResults).toFinset \ ([2, 3, 4] : List Nat).toFinset
        = ({1} : Finset Nat) := by decide
    rw [hR, Finset.sort_singleton]
    decide
  · obtain ⟨us, hus, hout⟩ := (C1_not_local_minus_remote wRemoteFast [] [] [] "U" "L"
      wResults [] "f1" "t" wRemoteFast_wb (by decide) (by decide)).1 "C" 1 (by decide)
    have h2 : wRemoteFast.deref "U" = some [2, 3, 4] := by decide
    rw [h2] at hus
    obtain rfl : us = [2, 3, 4] := (Option.some.inj hus).symm
    exact hout

/-- A remote service where every dereference fails (stale user handle). -/
def wRemoteStale : RemoteService :=
  { upload := fun l => if l = [1, 2, 3] then some "L" else none,
    combine := fun _ _ _ => none,
    deref := fun _ => none }

/-- Witness for C4: with a stale user handle the combiner returns the
stale_search error carrying the handle and its name, leaving the filter
store and the app-search record untouched. -/
theorem C4_stale_handle_no_local_result_witness :
    combine_pubchem wRemoteStale [] [] [] "NOT" (some "U") (some wResults) [] "f1" "t"
      = (.staleSearch "U" (lookup_search_name [] [] [] "U"), [], []) :=
  C4_stale_handle_no_local_result wRemoteStale [] [] [] "NOT" "U" "L" wResults [] "f1" "t"
    (Or.inr (Or.inr rfl)) (by decide) (by decide) rfl rfl

/-- A remote service for the zero-match witness: the user handle
dereferences to {4,5}, disjoint from the local CIDs. -/
def wRemoteZero : RemoteService :=
  { upload := fun l => if l = [1, 2, 3] then some "L" else none,
    combine := fun _ _ _ => none,
    deref := fun k => if k = "U" then some [4, 5] else none }

/-- Witness for C8: an AND combination with disjoint sets persists an
empty FilterResult (no URL) and returns the zero-match outcome. -/
theorem C8_zero_match_persisted_witness :
    combine_pubchem wRemoteZero [] [] [] "AND" (some "U") (some wResults) [] "f1" "t"
      = (.zeroMatch "f1",
         save_filter_result [] "f1" (lookup_search_name [] [] [] "U")
           (pyUpper "AND") [] "" "t",
         []) :=
  ((C8_zero_match_persisted wRemoteZero [] [] [] "AND" "U" "L" wResults [] "f1" "t"
    (Or.inl rfl) (by decide) (by decide)).2 [4, 5] rfl (by decide) (by decide)).1
